import Mathlib

/-!
Verification development for the multithreaded chunked file compression
tool (`src/compression.cpp`). The program splits an input file into
16 KB chunks, compresses or decompresses every chunk on its own
`std::thread`, collects the per-chunk results into a shared vector under a
mutex, and writes them out under a simple framing format: a 4-byte magic
header followed by one length-prefixed record per chunk.

The embedding is byte-level: files are `List Nat` of byte values. The
single-block zlib primitive is an external collaborator (spec §1), so it
enters the development as a parameter `ZlibModel` constrained by the
contract `ZlibModel.WF`; everything else is translated from the source.
Concurrency is embedded by making the one scheduler-dependent event
explicit: the order in which the workers reach their mutex-guarded fan-in
section is passed as a list `order` of chunk indices (a permutation of the
dispatch order), and the shared state updates are folded over that order.
-/

set_option maxRecDepth 16384

namespace Compression

deriving instance DecidableEq for Except

/-- The fixed chunk bound of line 9 of the source: 16 KB. -/
def CHUNK_SIZE : Nat := 16384

/-- The width in bytes of the record length field: the source writes a whole
`uLong` (line 110) and reads one back (line 143), which is 8 bytes on the
LP64 platforms the tool targets. -/
def SIZEOF_ULONG : Nat := 8

/-- The four magic bytes "CMP1" written at line 66 and checked at line 131. -/
def magic : List Nat := [67, 77, 80, 49]

/-- Error taxonomy of the `std::runtime_error`s the source throws, following
the spec taxonomy (§7): `invalidFormat` (line 132) and `corruptedFile`
(line 151) are the two `FormatError`s; the codec errors (lines 25 and 44)
carry the offending block, so that failures thrown by different workers are
distinguishable values, as distinct `std::exception_ptr` objects are. -/
inductive Err where
  | invalidFormat : Err
  | corruptedFile : Err
  | compressFailed : List Nat → Err
  | decompressFailed : List Nat → Err
deriving DecidableEq

/-- Modelled from the spec: the single-block zlib `compress`/`uncompress`
primitive is an external opaque capability (§1), not part of `src/`.
`compress b` is the compressed image of block `b`; `uncompress c cap` is
the decompressed image of `c` when a destination capacity of `cap` bytes
suffices, and `none` (a `Z_BUF_ERROR`-style failure) otherwise. -/
structure ZlibModel where
  compress : List Nat → List Nat
  uncompress : List Nat → Nat → Option (List Nat)

/-- Modelled from the spec: the contract of the primitive (§4.2, §9).
Compressed images of nonempty blocks are nonempty; a compressed image fits
the two-fold destination buffer `compressBlock` allocates at line 19; and
`uncompress` applied to a genuine compressed image succeeds exactly when
the supplied capacity reaches the true decompressed length, in which case
it returns the true bytes and reports their actual count (§9: the codec
reports its own output length). -/
def ZlibModel.WF (M : ZlibModel) : Prop :=
  (∀ b, b ≠ [] → M.compress b ≠ []) ∧
  (∀ b, (M.compress b).length ≤ 2 * b.length) ∧
  (∀ b cap, b.length ≤ cap → M.uncompress (M.compress b) cap = some b) ∧
  (∀ b cap, cap < b.length → M.uncompress (M.compress b) cap = none)

/-- Shallow embedding of `compressBlock` (lines 15-31): empty input is
returned untouched; otherwise a destination buffer of twice the input size
is allocated, so zlib succeeds exactly when the compressed image fits it,
and the buffer is then resized down to the reported compressed size. -/
def compressBlock (M : ZlibModel) (data : List Nat) : Except Err (List Nat) :=
  if data = [] then .ok []
  else if (M.compress data).length ≤ 2 * data.length then .ok (M.compress data)
  else .error (.compressFailed data)

/-- Shallow embedding of `decompressBlock` (lines 34-50): empty input is
returned untouched; otherwise zlib decompresses into a buffer of
`originalSize` bytes and the buffer is resized down to the size zlib
reports. -/
def decompressBlock (M : ZlibModel) (compressedData : List Nat) (originalSize : Nat) :
    Except Err (List Nat) :=
  if compressedData = [] then .ok []
  else
    match M.uncompress compressedData originalSize with
    | some raw => .ok raw
    | none => .error (.decompressFailed compressedData)

/-- Shallow embedding of the chunk splitter, the read loop of
`compressFile` (lines 74-81): while bytes remain, up to `CHUNK_SIZE` bytes
are read and the buffer is resized to the count actually read; a read of
zero bytes ends the loop. -/
def chunkify (data : List Nat) : List (List Nat) :=
  if h : data = [] then []
  else data.take CHUNK_SIZE :: chunkify (data.drop CHUNK_SIZE)
termination_by data.length
decreasing_by
  simp only [List.length_drop, CHUNK_SIZE]
  have : 0 < data.length := List.length_pos.mpr h
  omega

/-- The number of `std::thread`s `compressFile` creates: its read loop
(lines 74-93) emplaces exactly one worker thread per nonempty read of at
most `CHUNK_SIZE` bytes, with no pool bound. -/
def compressThreadCount (input : List Nat) : Nat :=
  if h : input = [] then 0
  else 1 + compressThreadCount (input.drop CHUNK_SIZE)
termination_by input.length
decreasing_by
  simp only [List.length_drop, CHUNK_SIZE]
  have : 0 < input.length := List.length_pos.mpr h
  omega

/-- Little-endian serialization of a machine integer into `w` bytes, as the
raw `outFile.write(reinterpret_cast(&chunkSize), sizeof(chunkSize))` of
line 110 produces on a little-endian LP64 platform; a value that does not
fit `w` bytes is truncated, as the fixed-width store is. -/
def natToLE : Nat → Nat → List Nat
  | 0, _ => []
  | w + 1, n => n % 256 :: natToLE w (n / 256)

/-- Little-endian deserialization of a byte list into the machine integer
the raw `inFile.read(reinterpret_cast(&chunkSize), sizeof(chunkSize))` of
line 143 reconstructs. -/
def leToNat : List Nat → Nat
  | [] => 0
  | b :: bs => b + 256 * leToNat bs

/-- Shallow embedding of the fan-in performed by the worker threads (lines
83-92, and identically lines 155-164): `results` holds, per chunk index,
the outcome the worker for that chunk produces, and `order` is the sequence
in which the workers reach their mutex-guarded section. A successful worker
appends its block to the shared vector (`push_back`, lines 87 and 159); a
failing worker stores its exception into the shared slot, overwriting
whatever the slot held (lines 90 and 162). -/
def collectStep (results : List (Except Err (List Nat)))
    (st : List (List Nat) × Option Err) (i : Nat) : List (List Nat) × Option Err :=
  match results[i]? with
  | some (Except.ok c) => (st.1 ++ [c], st.2)
  | some (Except.error e) => (st.1, some e)
  | none => st

/-- The shared fan-in state after the workers have run in the given order:
the folded sequence of their mutex-guarded actions, starting from the empty
vector and the null exception slot (lines 69-71 and 136-138). -/
def collect (results : List (Except Err (List Nat))) (order : List Nat) :
    List (List Nat) × Option Err :=
  order.foldl (collectStep results) ([], none)

/-- Shallow embedding of `compressFile` (lines 53-113) at the byte level.
The returned pair is (bytes written to the output file, exception escaping
the call, if any). The magic header is written up front (line 66); the read
loop splits the input into chunks and spawns one compression worker per
chunk; all workers are joined (lines 96-100); a captured exception is then
rethrown with only the header written (lines 103-105); otherwise every
collected block is written, in collection order, as an 8-byte length field
followed by the block (lines 108-112). -/
def compressFile (M : ZlibModel) (order : List Nat) (input : List Nat) :
    List Nat × Option Err :=
  match (collect ((chunkify input).map (compressBlock M)) order).2 with
  | some e => (magic, some e)
  | none =>
    (magic ++ ((collect ((chunkify input).map (compressBlock M)) order).1.map
      (fun c => natToLE SIZEOF_ULONG c.length ++ c)).flatten, none)

/-- Shallow embedding of the record-reading loop of `decompressFile`
(lines 141-152): while at least `sizeof(uLong)` bytes remain, an 8-byte
length field is read (a shorter trailing fragment makes that read hit
end-of-file, and the loop breaks at line 145); then `length` payload bytes
are read, and a shortfall throws the corrupted-file error (line 151). -/
def parseRecords (r : List Nat) : Except Err (List (List Nat)) :=
  if h : r.length < SIZEOF_ULONG then .ok []
  else
    let len := leToNat (r.take SIZEOF_ULONG)
    let rest := r.drop SIZEOF_ULONG
    if rest.length < len then .error .corruptedFile
    else
      match parseRecords (rest.drop len) with
      | .ok recs => .ok (rest.take len :: recs)
      | .error e => .error e
termination_by r.length
decreasing_by
  simp only [List.length_drop, SIZEOF_ULONG] at *
  omega

/-- Shallow embedding of the worker, join and write-out phase of
`decompressFile` (lines 154-182), returning (bytes written, escaping
exception): each parsed record gets a decompression worker that calls
`decompressBlock` with the fixed capacity `CHUNK_SIZE` (line 157); all
workers are joined (lines 167-172); a captured exception is rethrown with
nothing written (lines 175-177); otherwise the collected blocks are written
in collection order (lines 180-182). -/
def decompressJoin (M : ZlibModel) (order : List Nat) (recs : List (List Nat)) :
    List Nat × Option Err :=
  match (collect (recs.map (fun p => decompressBlock M p CHUNK_SIZE)) order).2 with
  | some e => ([], some e)
  | none =>
    ((collect (recs.map (fun p => decompressBlock M p CHUNK_SIZE)) order).1.flatten, none)

/-- Shallow embedding of the header check and record loop of
`decompressFile` (lines 116-152): the four header bytes are checked first
(lines 129-133), the records are parsed off the stream, and each record is
handed to a decompression worker, whose join and write-out phase is
`decompressJoin` above. -/
def decompressFile (M : ZlibModel) (order : List Nat) (input : List Nat) :
    List Nat × Option Err :=
  if input.take 4 = magic then
    match parseRecords (input.drop 4) with
    | .error e => ([], some e)
    | .ok recs => decompressJoin M order recs
  else ([], some .invalidFormat)

/-- An instance of the primitive model used to exercise the embedding on
concrete inputs: the identity codec satisfies the zlib contract. -/
def idCodec : ZlibModel where
  compress := fun b => b
  uncompress := fun c cap => if c.length ≤ cap then some c else none

/-- An instance of the primitive model whose compressed image never fits
the two-fold buffer `compressBlock` allocates, so compression of every
nonempty block fails: it drives the failure paths on concrete inputs. -/
def blowupCodec : ZlibModel where
  compress := fun b => List.replicate (2 * b.length + 1) 0
  uncompress := fun _ _ => none

/-! Basic properties of the little-endian length field. -/

theorem natToLE_length (w n : Nat) : (natToLE w n).length = w := by
  induction w generalizing n with
  | zero => rfl
  | succ w ih => simp [natToLE, ih]

theorem leToNat_natToLE (w n : Nat) : leToNat (natToLE w n) = n % 256 ^ w := by
  induction w generalizing n with
  | zero => simp [natToLE, leToNat, Nat.mod_one]
  | succ w ih =>
    simp only [natToLE, leToNat, ih]
    rw [pow_succ, mul_comm (256 ^ w) 256, Nat.mod_mul]

theorem leToNat_natToLE_of_lt (w n : Nat) (h : n < 256 ^ w) :
    leToNat (natToLE w n) = n := by
  rw [leToNat_natToLE, Nat.mod_eq_of_lt h]

/-! Properties of the chunk splitter. -/

theorem chunkify_nil : chunkify [] = [] := by
  rw [chunkify]
  simp

theorem chunkify_of_ne_nil (d : List Nat) (h : d ≠ []) :
    chunkify d = d.take CHUNK_SIZE :: chunkify (d.drop CHUNK_SIZE) := by
  rw [chunkify]
  simp [h]

theorem chunkify_of_length_le (d : List Nat) (h : d ≠ []) (hl : d.length ≤ CHUNK_SIZE) :
    chunkify d = [d] := by
  rw [chunkify_of_ne_nil d h, List.take_of_length_le hl,
    List.drop_eq_nil_of_le hl, chunkify_nil]

theorem chunkify_append (l₁ l₂ : List Nat) (h₁ : l₁.length = CHUNK_SIZE) (h₂ : l₂ ≠ []) :
    chunkify (l₁ ++ l₂) = l₁ :: chunkify l₂ := by
  have hne : l₁ ++ l₂ ≠ [] := by
    intro hc
    exact h₂ (List.append_eq_nil.mp hc).2
  rw [chunkify_of_ne_nil _ hne, List.take_left' h₁, List.drop_left' h₁]

theorem chunkify_flatten (d : List Nat) : (chunkify d).flatten = d := by
  induction d using chunkify.induct with
  | case1 => rw [chunkify_nil]; rfl
  | case2 x h ih =>
    rw [chunkify_of_ne_nil x h, List.flatten_cons, ih, List.take_append_drop]

theorem chunkify_mem (d c : List Nat) (hc : c ∈ chunkify d) :
    c ≠ [] ∧ c.length ≤ CHUNK_SIZE := by
  induction d using chunkify.induct with
  | case1 => rw [chunkify_nil] at hc; cases hc
  | case2 x h ih =>
    rw [chunkify_of_ne_nil x h] at hc
    rcases List.mem_cons.mp hc with h1 | h2
    · subst h1
      refine ⟨?_, ?_⟩
      · intro ht
        rcases List.take_eq_nil_iff.mp ht with h0 | hx
        · exact absurd h0 (by simp [CHUNK_SIZE])
        · exact h hx
      · rw [List.length_take]
        exact min_le_left _ _
    · exact ih h2

theorem chunkify_eq_nil_iff (d : List Nat) : chunkify d = [] ↔ d = [] := by
  constructor
  · intro h
    by_contra hd
    rw [chunkify_of_ne_nil d hd] at h
    exact List.cons_ne_nil _ _ h
  · intro h
    rw [h, chunkify_nil]

theorem chunkify_get_eq (d : List Nat) :
    ∀ i c, i + 1 < (chunkify d).length → (chunkify d)[i]? = some c →
      c.length = CHUNK_SIZE := by
  induction d using chunkify.induct with
  | case1 =>
    intro i c h _
    rw [chunkify_nil] at h
    simp at h
  | case2 x hx ih =>
    intro i c h hc
    rw [chunkify_of_ne_nil x hx] at h hc
    match i with
    | 0 =>
      rw [List.getElem?_cons_zero] at hc
      have hdrop : x.drop CHUNK_SIZE ≠ [] := by
        intro hz
        rw [List.length_cons, hz, chunkify_nil] at h
        simp at h
      have hlen : CHUNK_SIZE < x.length := by
        by_contra hle
        push_neg at hle
        exact hdrop (List.drop_eq_nil_of_le hle)
      injection hc with hc
      rw [← hc, List.length_take]
      omega
    | i + 1 =>
      rw [List.getElem?_cons_succ] at hc
      rw [List.length_cons] at h
      exact ih i c (by omega) hc

/-! Properties of the thread count. -/

theorem compressThreadCount_nil : compressThreadCount [] = 0 := by
  rw [compressThreadCount]
  simp

theorem compressThreadCount_of_ne_nil (d : List Nat) (h : d ≠ []) :
    compressThreadCount d = 1 + compressThreadCount (d.drop CHUNK_SIZE) := by
  rw [compressThreadCount]
  simp [h]

theorem compressThreadCount_eq_chunk_count (d : List Nat) :
    compressThreadCount d = (chunkify d).length := by
  induction d using chunkify.induct with
  | case1 => rw [chunkify_nil, compressThreadCount_nil]; rfl
  | case2 x h ih =>
    rw [chunkify_of_ne_nil x h, compressThreadCount_of_ne_nil x h, List.length_cons, ih]
    omega

theorem compressThreadCount_replicate (k : Nat) :
    compressThreadCount (List.replicate (CHUNK_SIZE * k + 1) 0) = k + 1 := by
  induction k with
  | zero =>
    rw [show CHUNK_SIZE * 0 + 1 = 1 by ring]
    rw [compressThreadCount_of_ne_nil _ (by simp)]
    rw [List.drop_eq_nil_of_le (by simp [CHUNK_SIZE]), compressThreadCount_nil]
  | succ k ih =>
    rw [show CHUNK_SIZE * (k + 1) + 1 = CHUNK_SIZE + (CHUNK_SIZE * k + 1) by ring]
    rw [List.replicate_add]
    rw [compressThreadCount_of_ne_nil _ ?hne]
    case hne =>
      intro hc
      have h2 := (List.append_eq_nil.mp hc).2
      rw [List.replicate_eq_nil_iff] at h2
      omega
    rw [List.drop_left' (List.length_replicate _ _), ih]
    omega

/-! Properties of the fan-in collector. -/

theorem collect_nil (rs : List (Except Err (List Nat))) : collect rs [] = ([], none) := rfl

theorem collect_concat (rs : List (Except Err (List Nat))) (o : List Nat) (i : Nat) :
    collect rs (o ++ [i]) = collectStep rs (collect rs o) i := by
  unfold collect
  rw [List.foldl_append]
  rfl

theorem foldl_collectStep_snd (rs : List (Except Err (List Nat))) (o : List Nat)
    (h : ∀ j ∈ o, ∀ e, rs[j]? ≠ some (Except.error e)) :
    ∀ st, (o.foldl (collectStep rs) st).2 = st.2 := by
  induction o with
  | nil => intro st; rfl
  | cons j o ih =>
    intro st
    rw [List.foldl_cons, ih (fun j' hj' => h j' (List.mem_cons_of_mem _ hj'))]
    unfold collectStep
    cases hj : rs[j]? with
    | none => rfl
    | some r =>
      cases r with
      | ok c => rfl
      | error e => exact absurd hj (h j (List.mem_cons_self _ _) e)

theorem collect_map_ok_range (l : List (List Nat)) :
    ∀ k, k ≤ l.length → collect (l.map Except.ok) (List.range k) = (l.take k, none) := by
  intro k
  induction k with
  | zero => intro _; rfl
  | succ k ih =>
    intro hk
    rw [List.range_succ, collect_concat, ih (Nat.le_of_succ_le hk)]
    unfold collectStep
    have hk' : k < l.length := hk
    rw [List.getElem?_map, List.getElem?_eq_getElem hk', Option.map_some']
    show (l.take k ++ [l[k]], (none : Option Err)) = (l.take (k + 1), none)
    rw [List.take_succ, List.getElem?_eq_getElem hk']
    rfl

/-! Properties of the per-block codec wrappers. -/

theorem compressBlock_eq_ok (M : ZlibModel) (hM : M.WF) (c : List Nat) (hc : c ≠ []) :
    compressBlock M c = .ok (M.compress c) := by
  unfold compressBlock
  rw [if_neg hc, if_pos (hM.2.1 c)]

theorem decompressBlock_eq_ok (M : ZlibModel) (hM : M.WF) (b : List Nat) (cap : Nat)
    (hcap : b.length ≤ cap) : decompressBlock M (M.compress b) cap = .ok b := by
  unfold decompressBlock
  by_cases hb : M.compress b = []
  · rw [if_pos hb]
    by_cases hbb : b = []
    · rw [hbb]
    · exact absurd hb (hM.1 b hbb)
  · rw [if_neg hb, hM.2.2.1 b cap hcap]

theorem idCodec_wf : idCodec.WF := by
  refine ⟨fun b hb => hb, fun b => ?_, fun b cap h => ?_, fun b cap h => ?_⟩
  · show b.length ≤ 2 * b.length
    omega
  · show (if b.length ≤ cap then some b else none) = some b
    rw [if_pos h]
  · show (if b.length ≤ cap then some b else none) = none
    rw [if_neg (by omega)]

/-! Properties of the record parser. -/

theorem parseRecords_short (r : List Nat) (h : r.length < SIZEOF_ULONG) :
    parseRecords r = .ok [] := by
  rw [parseRecords]
  simp [h]

theorem parseRecords_record (p rest : List Nat) (hp : p.length < 256 ^ SIZEOF_ULONG) :
    parseRecords ((natToLE SIZEOF_ULONG p.length ++ p) ++ rest) =
      match parseRecords rest with
      | .ok recs => .ok (p :: recs)
      | .error e => .error e := by
  have hlen : (natToLE SIZEOF_ULONG p.length).length = SIZEOF_ULONG :=
    natToLE_length _ _
  rw [parseRecords]
  rw [dif_neg ?hlong]
  case hlong =>
    rw [List.append_assoc, List.length_append, hlen]
    omega
  rw [List.append_assoc, List.take_left' hlen, List.drop_left' hlen]
  rw [leToNat_natToLE_of_lt _ _ hp]
  rw [if_neg ?hfit]
  case hfit =>
    rw [List.length_append]
    omega
  rw [List.take_left, List.drop_left]

theorem parseRecords_flatten (ps : List (List Nat)) (f : List Nat)
    (hps : ∀ p ∈ ps, p.length < 256 ^ SIZEOF_ULONG) (hf : f.length < SIZEOF_ULONG) :
    parseRecords ((ps.map (fun p => natToLE SIZEOF_ULONG p.length ++ p)).flatten ++ f) =
      .ok ps := by
  induction ps with
  | nil => simpa using parseRecords_short f hf
  | cons p ps ih =>
    rw [List.map_cons, List.flatten_cons, List.append_assoc]
    rw [parseRecords_record p _ (hps p (List.mem_cons_self _ _))]
    rw [ih (fun q hq => hps q (List.mem_cons_of_mem _ hq))]

theorem parseRecords_truncated (ps : List (List Nat)) (L : Nat) (t : List Nat)
    (hps : ∀ p ∈ ps, p.length < 256 ^ SIZEOF_ULONG) (hL : L < 256 ^ SIZEOF_ULONG)
    (ht : t.length < L) :
    parseRecords ((ps.map (fun p => natToLE SIZEOF_ULONG p.length ++ p)).flatten ++
      (natToLE SIZEOF_ULONG L ++ t)) = .error .corruptedFile := by
  induction ps with
  | nil =>
    simp only [List.map_nil, List.flatten_nil, List.nil_append]
    have hlen : (natToLE SIZEOF_ULONG L).length = SIZEOF_ULONG := natToLE_length _ _
    rw [parseRecords]
    rw [dif_neg ?hlong]
    case hlong =>
      rw [List.length_append, hlen]
      omega
    rw [List.take_left' hlen, List.drop_left' hlen, leToNat_natToLE_of_lt _ _ hL]
    rw [if_pos ht]
  | cons p ps ih =>
    rw [List.map_cons, List.flatten_cons, List.append_assoc]
    rw [parseRecords_record p _ (hps p (List.mem_cons_self _ _))]
    rw [ih (fun q hq => hps q (List.mem_cons_of_mem _ hq))]

theorem parseRecords_flatten_nil (ps : List (List Nat))
    (hps : ∀ p ∈ ps, p.length < 256 ^ SIZEOF_ULONG) :
    parseRecords ((ps.map (fun p => natToLE SIZEOF_ULONG p.length ++ p)).flatten) = .ok ps := by
  have h := parseRecords_flatten ps [] hps (by norm_num [SIZEOF_ULONG])
  simpa using h

/-! Computation of the two stream operations under fan-in in dispatch order. -/

theorem compress_sizes (M : ZlibModel) (hM : M.WF) (I : List Nat) :
    ∀ p ∈ (chunkify I).map M.compress, p.length < 256 ^ SIZEOF_ULONG := by
  intro p hp
  rcases List.mem_map.mp hp with ⟨c, hc, rfl⟩
  have h1 : (M.compress c).length ≤ 2 * c.length := hM.2.1 c
  have h2 : c.length ≤ CHUNK_SIZE := (chunkify_mem I c hc).2
  have h3 : (256 : Nat) ^ SIZEOF_ULONG = 18446744073709551616 := by norm_num [SIZEOF_ULONG]
  rw [h3]
  simp only [CHUNK_SIZE] at h2
  omega

theorem compressFile_dispatch_order (M : ZlibModel) (hM : M.WF) (I : List Nat) :
    compressFile M (List.range (chunkify I).length) I =
      (magic ++ (((chunkify I).map M.compress).map
        (fun c => natToLE SIZEOF_ULONG c.length ++ c)).flatten, none) := by
  unfold compressFile
  have hmap : (chunkify I).map (compressBlock M) =
      ((chunkify I).map M.compress).map Except.ok := by
    rw [List.map_map]
    apply List.map_congr_left
    intro c hc
    exact compressBlock_eq_ok M hM c (chunkify_mem I c hc).1
  rw [hmap]
  rw [show List.range (chunkify I).length =
    List.range (((chunkify I).map M.compress).length) by rw [List.length_map]]
  rw [collect_map_ok_range _ _ le_rfl, List.take_length]

theorem decompressFile_roundtrip_frag (M : ZlibModel) (hM : M.WF) (I f : List Nat)
    (hf : f.length < SIZEOF_ULONG) :
    decompressFile M (List.range (chunkify I).length)
      ((compressFile M (List.range (chunkify I).length) I).1 ++ f) = (I, none) := by
  rw [compressFile_dispatch_order M hM I]
  unfold decompressFile
  rw [List.append_assoc]
  rw [List.take_left' (show magic.length = 4 from rfl)]
  rw [if_pos rfl]
  rw [List.drop_left' (show magic.length = 4 from rfl)]
  rw [parseRecords_flatten _ f (compress_sizes M hM I) hf]
  have hworkers : (((chunkify I).map M.compress).map
      (fun p => decompressBlock M p CHUNK_SIZE)) = (chunkify I).map Except.ok := by
    rw [List.map_map]
    apply List.map_congr_left
    intro c hc
    exact decompressBlock_eq_ok M hM c CHUNK_SIZE (chunkify_mem I c hc).2
  show decompressJoin M (List.range (chunkify I).length) ((chunkify I).map M.compress) =
    (I, none)
  unfold decompressJoin
  rw [hworkers, collect_map_ok_range _ _ le_rfl, List.take_length]
  simp [chunkify_flatten]

/-! Concrete evaluations used to exhibit scheduler-dependent behaviour. The
input `List.replicate CHUNK_SIZE 0 ++ [b]` splits into exactly two chunks:
one full chunk of zeros and a final one-byte chunk. -/

theorem chunkify_two_chunks (b : Nat) :
    chunkify (List.replicate CHUNK_SIZE 0 ++ [b]) = [List.replicate CHUNK_SIZE 0, [b]] := by
  rw [chunkify_append _ _ (List.length_replicate _ _) (by simp)]
  rw [chunkify_of_length_le _ (by simp) (by norm_num [CHUNK_SIZE])]

theorem replicate_chunk_ne_nil : List.replicate CHUNK_SIZE (0 : Nat) ≠ [] := by
  intro hc
  rw [List.replicate_eq_nil_iff] at hc
  norm_num [CHUNK_SIZE] at hc

theorem compressBlock_blowup (c : List Nat) (hc : c ≠ []) :
    compressBlock blowupCodec c = .error (.compressFailed c) := by
  unfold compressBlock
  rw [if_neg hc, if_neg ?hgt]
  case hgt =>
    simp only [blowupCodec, List.length_replicate]
    omega

theorem compressFile_blowup_single :
    compressFile blowupCodec [0] [5] = (magic, some (.compressFailed [5])) := by
  unfold compressFile
  rw [chunkify_of_length_le [5] (by simp) (by norm_num [CHUNK_SIZE])]
  rw [List.map_cons, List.map_nil, compressBlock_blowup [5] (by simp)]
  rfl

theorem compressFile_id_reversed :
    compressFile idCodec [1, 0] (List.replicate CHUNK_SIZE 0 ++ [1]) =
      (magic ++ ((([[1], List.replicate CHUNK_SIZE 0] : List (List Nat)).map
        (fun c => natToLE SIZEOF_ULONG c.length ++ c)).flatten), none) := by
  unfold compressFile
  rw [chunkify_two_chunks 1]
  rw [List.map_cons, List.map_cons, List.map_nil]
  rw [compressBlock_eq_ok idCodec idCodec_wf _ replicate_chunk_ne_nil]
  rw [compressBlock_eq_ok idCodec idCodec_wf _ (by simp)]
  rfl

theorem decompressFile_two_records (M : ZlibModel) (p₀ p₁ b₀ b₁ : List Nat)
    (h₀ : decompressBlock M p₀ CHUNK_SIZE = .ok b₀)
    (h₁ : decompressBlock M p₁ CHUNK_SIZE = .ok b₁)
    (hp₀ : p₀.length < 256 ^ SIZEOF_ULONG) (hp₁ : p₁.length < 256 ^ SIZEOF_ULONG) :
    decompressFile M (List.range 2)
      (magic ++ (([p₀, p₁].map (fun p => natToLE SIZEOF_ULONG p.length ++ p)).flatten)) =
      (b₀ ++ b₁, none) := by
  unfold decompressFile
  rw [List.take_left' (show magic.length = 4 from rfl), if_pos rfl,
    List.drop_left' (show magic.length = 4 from rfl)]
  rw [parseRecords_flatten_nil [p₀, p₁] ?sizes]
  case sizes =>
    intro p hp
    simp only [List.mem_cons, List.not_mem_nil, or_false] at hp
    rcases hp with rfl | rfl
    · exact hp₀
    · exact hp₁
  show decompressJoin M (List.range 2) [p₀, p₁] = (b₀ ++ b₁, none)
  unfold decompressJoin
  rw [List.map_cons, List.map_cons, List.map_nil, h₀, h₁]
  have hcoll := collect_map_ok_range [b₀, b₁] 2 (by simp)
  simp only [List.map_cons, List.map_nil, List.take_succ_cons, List.take_zero] at hcoll
  rw [hcoll]
  simp

/-! Claim theorems. Each claim of the specification is settled below; a
corrected claim comes with a counterexample refuting the claim as stated
and a theorem proving the nearby statement that does hold. -/

/-- C1 (counterexample): the round-trip guarantee does not hold for every
legitimate completion order of the workers. For the two-chunk input
`replicate CHUNK_SIZE 0 ++ [1]`, if the compression workers reach the
fan-in in the reversed order `[1, 0]` (a permutation of the dispatch order
`range 2`), the decompressed stream is the two chunks swapped, not the
input. -/
theorem c1_roundtrip_counterexample :
    List.Perm [1, 0] (List.range 2) ∧
    decompressFile idCodec (List.range 2)
        ((compressFile idCodec [1, 0] (List.replicate CHUNK_SIZE 0 ++ [1])).1) =
      ([1] ++ List.replicate CHUNK_SIZE 0, none) ∧
    [1] ++ List.replicate CHUNK_SIZE 0 ≠ List.replicate CHUNK_SIZE 0 ++ [1] := by
  refine ⟨by decide, ?_, ?_⟩
  · have h1 := congrArg Prod.fst compressFile_id_reversed
    simp only at h1
    rw [h1]
    apply decompressFile_two_records idCodec [1] (List.replicate CHUNK_SIZE 0)
    · exact decompressBlock_eq_ok idCodec idCodec_wf [1] CHUNK_SIZE (by norm_num [CHUNK_SIZE])
    · exact decompressBlock_eq_ok idCodec idCodec_wf (List.replicate CHUNK_SIZE 0) CHUNK_SIZE
        (by rw [List.length_replicate])
    · norm_num [SIZEOF_ULONG]
    · rw [List.length_replicate]
      norm_num [CHUNK_SIZE, SIZEOF_ULONG]
  · intro h
    have h0 := congrArg (fun l => l[0]?) h
    simp only at h0
    rw [List.getElem?_append, List.getElem?_append] at h0
    rw [if_pos (by simp)] at h0
    rw [if_pos (by rw [List.length_replicate]; norm_num [CHUNK_SIZE])] at h0
    rw [List.getElem?_replicate, if_pos (by norm_num [CHUNK_SIZE])] at h0
    simp at h0

/-- C1 (amended): for every input stream and every well-formed codec, the
round trip `decompressFile` after `compressFile` reproduces the input
exactly, provided the workers reach the fan-in in dispatch order in both
phases (`List.range` over the chunk indices) — which also covers every
input of at most one chunk, where only one completion order exists. -/
theorem c1_roundtrip_dispatch_order (M : ZlibModel) (hM : M.WF) (I : List Nat) :
    decompressFile M (List.range (chunkify I).length)
      ((compressFile M (List.range (chunkify I).length) I).1) = (I, none) := by
  have h := decompressFile_roundtrip_frag M hM I [] (by norm_num [SIZEOF_ULONG])
  simpa using h

/-- C1 (witness): the amended round trip at the concrete single-chunk input
`[5]` with the identity codec. -/
theorem c1_roundtrip_witness :
    decompressFile idCodec (List.range (chunkify [5]).length)
      ((compressFile idCodec (List.range (chunkify [5]).length) [5]).1) = ([5], none) :=
  c1_roundtrip_dispatch_order idCodec idCodec_wf [5]

/-- C2 (counterexample): the fan-in collector is a plain `push_back` under a
mutex, not keyed on the chunk index, so the record order in the output is
the completion order. With completion order `[1, 0]` (a permutation of
`range 2`) the records of the two-chunk input appear as chunk 1 before
chunk 0, not in index order. -/
theorem c2_order_counterexample :
    List.Perm [1, 0] (List.range 2) ∧
    parseRecords ((compressFile idCodec [1, 0]
        (List.replicate CHUNK_SIZE 0 ++ [1])).1.drop 4) =
      .ok [[1], List.replicate CHUNK_SIZE 0] ∧
    ([[1], List.replicate CHUNK_SIZE 0] : List (List Nat)) ≠
      (chunkify (List.replicate CHUNK_SIZE 0 ++ [1])).map idCodec.compress := by
  refine ⟨by decide, ?_, ?_⟩
  · have h1 := congrArg Prod.fst compressFile_id_reversed
    simp only at h1
    rw [h1, List.drop_left' (show magic.length = 4 from rfl)]
    apply parseRecords_flatten_nil
    intro p hp
    simp only [List.mem_cons, List.not_mem_nil, or_false] at hp
    rcases hp with rfl | rfl
    · norm_num [SIZEOF_ULONG]
    · rw [List.length_replicate]
      norm_num [CHUNK_SIZE, SIZEOF_ULONG]
  · rw [chunkify_two_chunks 1]
    intro h
    have hmap : ([List.replicate CHUNK_SIZE 0, [1]] : List (List Nat)).map idCodec.compress =
        [List.replicate CHUNK_SIZE 0, [1]] := rfl
    rw [hmap] at h
    injection h with h1 h2
    have := congrArg List.length h1
    rw [List.length_replicate] at this
    norm_num [CHUNK_SIZE] at this

/-- C2 (amended): the record order in the compressed output equals the
order in which workers reach the fan-in; when that completion order is the
dispatch order, the records appear exactly in chunk index order — the i-th
record is the compression of the i-th chunk. -/
theorem c2_index_order_when_completion_in_dispatch_order (M : ZlibModel) (hM : M.WF)
    (I : List Nat) :
    parseRecords ((compressFile M (List.range (chunkify I).length) I).1.drop 4) =
      .ok ((chunkify I).map M.compress) := by
  have h1 := congrArg Prod.fst (compressFile_dispatch_order M hM I)
  simp only at h1
  rw [h1, List.drop_left' (show magic.length = 4 from rfl)]
  exact parseRecords_flatten_nil _ (compress_sizes M hM I)

/-- C2 (witness): the amended ordering statement at the concrete input
`[4, 5]` with the identity codec. -/
theorem c2_order_witness :
    parseRecords ((compressFile idCodec (List.range (chunkify [4, 5]).length) [4, 5]).1.drop 4) =
      .ok ((chunkify [4, 5]).map idCodec.compress) :=
  c2_index_order_when_completion_in_dispatch_order idCodec idCodec_wf [4, 5]

/-- C3 (counterexample): the captured error is not the first failure
observed. With a codec that fails on every chunk and completion order
`[0, 1]`, worker 0's failure (carrying the full chunk of zeros) is observed
first, yet the operation raises worker 1's failure (carrying `[1]`),
because each failing worker overwrites the shared exception slot. -/
theorem c3_first_failure_counterexample :
    ((chunkify (List.replicate CHUNK_SIZE 0 ++ [1])).map (compressBlock blowupCodec))[0]? =
      some (.error (.compressFailed (List.replicate CHUNK_SIZE 0))) ∧
    (compressFile blowupCodec [0, 1] (List.replicate CHUNK_SIZE 0 ++ [1])).2 =
      some (.compressFailed [1]) ∧
    Err.compressFailed [1] ≠ Err.compressFailed (List.replicate CHUNK_SIZE 0) := by
  refine ⟨?_, ?_, ?_⟩
  · rw [chunkify_two_chunks 1, List.map_cons,
      compressBlock_blowup _ replicate_chunk_ne_nil]
    rfl
  · unfold compressFile
    rw [chunkify_two_chunks 1, List.map_cons, List.map_cons, List.map_nil,
      compressBlock_blowup _ replicate_chunk_ne_nil, compressBlock_blowup [1] (by simp)]
    rfl
  · intro h
    injection h with h1
    have := congrArg List.length h1
    rw [List.length_replicate] at this
    norm_num [CHUNK_SIZE] at this

/-- C3 (amended): the error the stream-level operation raises is the last
failure observed across the workers: if worker `i` fails with `e` and no
worker after `i` in the completion order fails, then `compressFile` raises
`e`, regardless of any earlier failures — each observed failure overwrites
the captured one. All workers are still processed (the fold consumes the
whole completion order) before the captured error is raised. -/
theorem c3_last_failure_wins (M : ZlibModel) (I : List Nat) (o₁ o₂ : List Nat) (i : Nat)
    (e : Err)
    (hi : ((chunkify I).map (compressBlock M))[i]? = some (Except.error e))
    (h₂ : ∀ j ∈ o₂, ∀ e2, ((chunkify I).map (compressBlock M))[j]? ≠
      some (Except.error e2)) :
    (compressFile M (o₁ ++ i :: o₂) I).2 = some e := by
  unfold compressFile
  have hsnd : (collect ((chunkify I).map (compressBlock M)) (o₁ ++ i :: o₂)).2 = some e := by
    unfold collect
    rw [List.foldl_append, List.foldl_cons]
    rw [foldl_collectStep_snd _ _ h₂]
    unfold collectStep
    rw [hi]
  rw [hsnd]

/-- C3 (witness): the amended statement at a concrete failing run: the
single chunk `[5]` fails under the blow-up codec and its error is raised. -/
theorem c3_last_failure_witness :
    (compressFile blowupCodec ([] ++ 0 :: []) [5]).2 = some (.compressFailed [5]) := by
  apply c3_last_failure_wins blowupCodec [5] [] [] 0 (.compressFailed [5])
  · rw [chunkify_of_length_le [5] (by simp) (by norm_num [CHUNK_SIZE])]
    rw [List.map_cons, List.map_nil, compressBlock_blowup [5] (by simp)]
    rfl
  · intro j hj
    cases hj

/-- C4: on any worker failure the stream-level operation discards all
partial worker output: whenever `compressFile` fails, the output file holds
exactly the four header bytes and no chunk record; whenever
`decompressFile` fails, nothing at all has been written. -/
theorem c4_no_partial_output_on_failure (M : ZlibModel) (order : List Nat)
    (input : List Nat) :
    ((compressFile M order input).2.isSome → (compressFile M order input).1 = magic) ∧
    ((decompressFile M order input).2.isSome → (decompressFile M order input).1 = []) := by
  constructor
  · unfold compressFile
    cases hc : (collect ((chunkify input).map (compressBlock M)) order).2 with
    | none => intro h; simp at h
    | some e => intro _; rfl
  · unfold decompressFile
    by_cases hm : input.take 4 = magic
    · rw [if_pos hm]
      cases hp : parseRecords (input.drop 4) with
      | error e => intro _; rfl
      | ok recs =>
        show (decompressJoin M order recs).2.isSome → (decompressJoin M order recs).1 = []
        unfold decompressJoin
        cases hcc : (collect (recs.map (fun p => decompressBlock M p CHUNK_SIZE)) order).2 with
        | none => intro h; simp at h
        | some e => intro _; rfl
    · rw [if_neg hm]
      intro _
      rfl

/-- C4 (witness): a concrete failing compression (blow-up codec on `[5]`)
leaves only the header in the output, and a concrete failing decompression
(bad magic) writes nothing. -/
theorem c4_no_partial_output_witness :
    (compressFile blowupCodec [0] [5]).1 = magic ∧
    (decompressFile blowupCodec [0] [5]).1 = [] := by
  refine ⟨(c4_no_partial_output_on_failure blowupCodec [0] [5]).1 ?_,
    (c4_no_partial_output_on_failure blowupCodec [0] [5]).2 ?_⟩
  · rw [compressFile_blowup_single]
    rfl
  · unfold decompressFile
    rw [if_neg (by decide)]
    rfl

/-- C5 (counterexample): `decompressFile` does not pass each chunk's true
original length to the decoder, and a size mismatch is not an error: the
call site (line 157) always passes the constant `CHUNK_SIZE`. Decoding the
one-byte block `[5]` with `expectedRawSize = CHUNK_SIZE ≠ 1` succeeds, and
the whole-stream decompression of a one-byte-chunk stream succeeds as
well, instead of failing with a codec error. -/
theorem c5_fixed_capacity_counterexample :
    decompressBlock idCodec [5] CHUNK_SIZE = .ok [5] ∧
    (1 : Nat) ≠ CHUNK_SIZE ∧
    decompressFile idCodec [0] (magic ++ (natToLE SIZEOF_ULONG 1 ++ [5])) = ([5], none) := by
  refine ⟨by decide, by norm_num [CHUNK_SIZE], ?_⟩
  unfold decompressFile
  rw [List.take_left' (show magic.length = 4 from rfl), if_pos rfl,
    List.drop_left' (show magic.length = 4 from rfl)]
  have harg : natToLE SIZEOF_ULONG 1 ++ [5] =
      (([[5]] : List (List Nat)).map (fun p => natToLE SIZEOF_ULONG p.length ++ p)).flatten := by
    simp
  rw [harg, parseRecords_flatten_nil [[5]] ?sizes]
  case sizes =>
    intro p hp
    simp only [List.mem_cons, List.not_mem_nil, or_false] at hp
    subst hp
    norm_num [SIZEOF_ULONG]
  show decompressJoin idCodec [0] [[5]] = ([5], none)
  unfold decompressJoin
  simp [decompressBlock, idCodec, collect, collectStep, CHUNK_SIZE]

/-- C5 (amended): the decoder is invoked with the fixed constant
`CHUNK_SIZE` as `expectedRawSize`, not the chunk's true length, and a
mismatch is an error only in one direction: for a nonempty block,
decoding its compressed image with capacity `cap` succeeds — returning
exactly the true bytes — if and only if `cap` is at least the true length;
a capacity below the true length fails with the codec error. -/
theorem c5_decode_capacity (M : ZlibModel) (hM : M.WF) (b : List Nat) (cap : Nat)
    (hb : b ≠ []) :
    (decompressBlock M (M.compress b) cap = .ok b ↔ b.length ≤ cap) ∧
    (cap < b.length →
      decompressBlock M (M.compress b) cap = .error (.decompressFailed (M.compress b))) := by
  have herr : cap < b.length →
      decompressBlock M (M.compress b) cap = .error (.decompressFailed (M.compress b)) := by
    intro h
    unfold decompressBlock
    rw [if_neg (hM.1 b hb), hM.2.2.2 b cap h]
  refine ⟨⟨?_, fun h => decompressBlock_eq_ok M hM b cap h⟩, herr⟩
  intro h
  by_contra hlt
  push_neg at hlt
  rw [herr hlt] at h
  exact Except.noConfusion h

/-- C5 (witness): the amended capacity semantics at the concrete block
`[7]` with capacity `0` under the identity codec. -/
theorem c5_decode_capacity_witness :
    (decompressBlock idCodec (idCodec.compress [7]) 0 = .ok [7] ↔
      ([7] : List Nat).length ≤ 0) ∧
    (0 < ([7] : List Nat).length →
      decompressBlock idCodec (idCodec.compress [7]) 0 =
        .error (.decompressFailed (idCodec.compress [7]))) :=
  c5_decode_capacity idCodec idCodec_wf [7] 0 (by simp)

/-- C6: a compressed stream with a valid header that, after any number of
complete records, carries a complete 8-byte length field announcing `L`
bytes but is followed by fewer than `L` payload bytes makes
`decompressFile` fail with the corrupted-file format error, whatever the
codec and the worker completion order. -/
theorem c6_truncated_record (M : ZlibModel) (order : List Nat) (ps : List (List Nat))
    (L : Nat) (t : List Nat) (hps : ∀ p ∈ ps, p.length < 256 ^ SIZEOF_ULONG)
    (hL : L < 256 ^ SIZEOF_ULONG) (ht : t.length < L) :
    decompressFile M order
      (magic ++ ((ps.map (fun p => natToLE SIZEOF_ULONG p.length ++ p)).flatten ++
        (natToLE SIZEOF_ULONG L ++ t))) = ([], some .corruptedFile) := by
  unfold decompressFile
  rw [List.take_left' (show magic.length = 4 from rfl), if_pos rfl,
    List.drop_left' (show magic.length = 4 from rfl)]
  rw [parseRecords_truncated ps L t hps hL ht]

/-- C6 (witness): the truncation failure at a concrete stream: a valid
header, no complete record, a length field announcing 1 byte, and no
payload. -/
theorem c6_truncated_record_witness :
    decompressFile idCodec []
      (magic ++ ((([] : List (List Nat)).map
        (fun p => natToLE SIZEOF_ULONG p.length ++ p)).flatten ++
        (natToLE SIZEOF_ULONG 1 ++ []))) = ([], some .corruptedFile) :=
  c6_truncated_record idCodec [] [] 1 [] (by simp) (by norm_num [SIZEOF_ULONG])
    (by norm_num)

/-- C7: the chunk splitter yields a finite ordered list of chunks in which
every chunk is nonempty and at most `CHUNK_SIZE` bytes, every chunk other
than the last is exactly `CHUNK_SIZE` bytes, and the chunks concatenate
back to the whole input — the loop terminates at end of stream and never
yields a zero-sized chunk. -/
theorem c7_chunk_splitter_shape (I : List Nat) :
    (∀ c ∈ chunkify I, c ≠ [] ∧ c.length ≤ CHUNK_SIZE) ∧
    (∀ i c, i + 1 < (chunkify I).length → (chunkify I)[i]? = some c →
      c.length = CHUNK_SIZE) ∧
    (chunkify I).flatten = I :=
  ⟨fun c hc => chunkify_mem I c hc, chunkify_get_eq I, chunkify_flatten I⟩

/-- C7 (witness): the splitter shape at the concrete input `[7]`. -/
theorem c7_chunk_splitter_witness :
    (∀ c ∈ chunkify [7], c ≠ [] ∧ c.length ≤ CHUNK_SIZE) ∧
    (∀ i c, i + 1 < (chunkify [7]).length → (chunkify [7])[i]? = some c →
      c.length = CHUNK_SIZE) ∧
    (chunkify [7]).flatten = [7] :=
  c7_chunk_splitter_shape [7]

/-- C8 (counterexample): there is no worker-pool bound: the number of
threads `compressFile` creates is not bounded by any constant over all
inputs — for every candidate bound `k` the input of `CHUNK_SIZE * k + 1`
zero bytes creates `k + 1` threads. -/
theorem c8_unbounded_counterexample :
    ¬ ∃ k : Nat, ∀ I : List Nat, compressThreadCount I ≤ k := by
  rintro ⟨k, hk⟩
  have h := hk (List.replicate (CHUNK_SIZE * k + 1) 0)
  rw [compressThreadCount_replicate k] at h
  omega

/-- C8 (amended): the engine creates exactly one thread per chunk — the
thread count equals the chunk count for every input — and that count grows
without bound with the input size (`k + 1` threads for `CHUNK_SIZE * k + 1`
input bytes), with no pool ceiling tied to hardware concurrency. -/
theorem c8_one_thread_per_chunk :
    (∀ I : List Nat, compressThreadCount I = (chunkify I).length) ∧
    (∀ k : Nat, compressThreadCount (List.replicate (CHUNK_SIZE * k + 1) 0) = k + 1) :=
  ⟨compressThreadCount_eq_chunk_count, compressThreadCount_replicate⟩

/-- C8 (witness): the thread-per-chunk count at the concrete size
`CHUNK_SIZE * 2 + 1`, which creates three threads. -/
theorem c8_one_thread_per_chunk_witness :
    compressThreadCount (List.replicate (CHUNK_SIZE * 2 + 1) 0) = 3 :=
  c8_one_thread_per_chunk.2 2

/-- C9: `decompressBlock` succeeds whenever the supplied `originalSize` is
at least the block's true decompressed length, and then returns exactly the
true bytes (the buffer is resized down to the size the codec reports); in
particular a final chunk shorter than `CHUNK_SIZE` decompresses correctly
through the call site's fixed `CHUNK_SIZE` argument. -/
theorem c9_decode_generous_capacity (M : ZlibModel) (hM : M.WF) (b : List Nat) (cap : Nat)
    (hcap : b.length ≤ cap) :
    decompressBlock M (M.compress b) cap = .ok b :=
  decompressBlock_eq_ok M hM b cap hcap

/-- C9 (witness): the two-byte block `[3, 4]` — far shorter than
`CHUNK_SIZE` — decompresses exactly under the call site's fixed
`CHUNK_SIZE` capacity. -/
theorem c9_decode_generous_capacity_witness :
    decompressBlock idCodec (idCodec.compress [3, 4]) CHUNK_SIZE = .ok [3, 4] :=
  c9_decode_generous_capacity idCodec idCodec_wf [3, 4] CHUNK_SIZE
    (by norm_num [CHUNK_SIZE])

/-- C10: a compressed stream that ends, after the valid header and complete
records, with a trailing fragment of 1 to `sizeof(uLong) - 1` bytes is
accepted: the read of the next length field hits end-of-file, the loop
breaks silently (line 145), and decompression completes successfully with
the full original content — no format error is raised. -/
theorem c10_trailing_fragment_ignored (M : ZlibModel) (hM : M.WF) (I f : List Nat)
    (_hf1 : f ≠ []) (hf : f.length < SIZEOF_ULONG) :
    decompressFile M (List.range (chunkify I).length)
      ((compressFile M (List.range (chunkify I).length) I).1 ++ f) = (I, none) :=
  decompressFile_roundtrip_frag M hM I f hf

/-- C10 (witness): the empty input compressed and then decompressed with a
single stray trailing byte `[9]` still succeeds and yields the empty
output. -/
theorem c10_trailing_fragment_witness :
    decompressFile idCodec (List.range (chunkify []).length)
      ((compressFile idCodec (List.range (chunkify []).length) []).1 ++ [9]) = ([], none) :=
  c10_trailing_fragment_ignored idCodec idCodec_wf [] [9] (by simp)
    (by norm_num [SIZEOF_ULONG])

end Compression
